import Mathlib

/-!
Shallow embedding of the attribute-and-shape parsing engine of the
`twilight-interactions-derive` crate.

The embedding models the relevant parts of `syn` (paths, literals, metas,
attributes, variants) as plain inductive types carrying abstract source
positions (`Span := Nat`), and translates the functions of
`src/twilight-interactions-derive/src/attributes.rs` and
`src/twilight-interactions-derive/src/command/subcommand/parse.rs`
into Lean functions. `syn::Error` becomes a pair of a span and a message
string; `Result` becomes `Except Err`. The `HashMap<String, AttrValue>`
used by `NamedAttrs` is modelled by its observable behaviour (insert and
get), i.e. as a function `String → Option AttrValue` updated pointwise.
-/

namespace TwilightInteractions

/-- Abstract source position (`proc_macro2::Span`). -/
abbrev Span := Nat

/-- `syn::Error`: a span together with a message. -/
structure Err where
  span : Span
  msg : String
  deriving DecidableEq, Repr

/-- `syn::Lit`, restricted to the kinds the code distinguishes. -/
inductive Lit where
  | str (span : Span) (val : String)
  | bool (span : Span) (val : Bool)
  | other (span : Span)
  deriving DecidableEq, Repr

/-- `Lit::span`. -/
def Lit.span : Lit → Span
  | .str sp _ => sp
  | .bool sp _ => sp
  | .other sp => sp

/-- `syn::Path`: a list of segment identifiers, with a span. -/
structure Path where
  span : Span
  segments : List String
  deriving DecidableEq, Repr

/-- `syn::Path::get_ident`: the single segment, when there is exactly one. -/
def Path.get_ident (p : Path) : Option String :=
  match p.segments with
  | [s] => some s
  | _ => none

mutual

/-- `syn::Meta` (v1): a bare path, a list `path(...)`, or `path = lit`. -/
inductive Meta where
  | path (p : Path)
  | mlist (span : Span) (p : Path) (nested : List NestedMeta)
  | nameValue (p : Path) (lit : Lit)

/-- `syn::NestedMeta` (v1): an inner meta or a bare literal. -/
inductive NestedMeta where
  | meta (m : Meta)
  | lit (l : Lit)

end

/-- `Meta::span`. -/
def Meta.span : Meta → Span
  | .path p => p.span
  | .mlist sp _ _ => sp
  | .nameValue p _ => p.span

/-- `NestedMeta::span`. -/
def NestedMeta.span : NestedMeta → Span
  | .meta m => m.span
  | .lit l => l.span

/-- `syn::Attribute`, pre-paired with the result of `parse_meta()`. -/
structure Attribute where
  span : Span
  path : Path
  parse_meta : Except Err Meta

/-- `find_attr` (attributes.rs): first attribute whose path is the given single
identifier. -/
def find_attr (attrs : List Attribute) (name : String) : Option Attribute :=
  match attrs with
  | [] => none
  | attr :: rest =>
    match attr.path.get_ident with
    | some ident => if ident = name then some attr else find_attr rest name
    | none => find_attr rest name

/-- `AttrValue` (attributes.rs): wrapper around a literal. -/
structure AttrValue where
  lit : Lit
  deriving DecidableEq, Repr

/-- `AttrValue::span`. -/
def AttrValue.span (v : AttrValue) : Span := v.lit.span

/-- `AttrValue::parse_string`. -/
def AttrValue.parse_string (v : AttrValue) : Except Err String :=
  match v.lit with
  | .str _ inner => .ok inner
  | l => .error ⟨l.span, "Invalid attribute type, expected string"⟩

/-- `AttrValue::parse_bool`. -/
def AttrValue.parse_bool (v : AttrValue) : Except Err Bool :=
  match v.lit with
  | .bool _ inner => .ok inner
  | l => .error ⟨l.span, "Invalid attribute type, expected boolean"⟩

/-- The `HashMap<String, AttrValue>` of `NamedAttrs`, modelled by its
observable lookup behaviour. -/
def AttrTable := String → Option AttrValue

/-- `HashMap::new()`. -/
def AttrTable.empty : AttrTable := fun _ => none

/-- `HashMap::insert` (last write wins). -/
def AttrTable.insert (m : AttrTable) (k : String) (v : AttrValue) : AttrTable :=
  fun k' => if k' = k then some v else m k'

/-- Rust `str::contains` with a `&str` pattern: substring test. -/
def listIsInfix (pat : List Char) : List Char → Bool
  | [] => pat.isEmpty
  | c :: rest => pat.isPrefixOf (c :: rest) || listIsInfix pat rest

/-- Rust `hay.contains(pat)` on strings: substring test. -/
def strContains (hay pat : String) : Bool := listIsInfix pat.data hay.data

/-- `NamedAttrs` (attributes.rs): validated key to value table. -/
structure NamedAttrs where
  table : AttrTable

/-- `NamedAttrs::get`. -/
def NamedAttrs.get (a : NamedAttrs) (name : String) : Option AttrValue :=
  a.table name

/-- The loop body of `NamedAttrs::parse` (attributes.rs): `expectedJ` is the
already-joined expected-key string; note that the membership test of the
source is `String::contains`, i.e. a substring test on the joined string. -/
def NamedAttrs.parseEntries (expectedJ : String) :
    List NestedMeta → AttrTable → Except Err AttrTable
  | [], values => .ok values
  | nested :: rest, values =>
    match nested with
    | .meta (.nameValue p l) =>
      match p.get_ident with
      | some key =>
        if strContains expectedJ key then
          NamedAttrs.parseEntries expectedJ rest (values.insert key ⟨l⟩)
        else
          .error ⟨p.span, "Invalid parameter name (expected " ++ expectedJ ++ ")"⟩
      | none =>
        .error ⟨p.span, "Invalid parameter name (expected " ++ expectedJ ++ ")"⟩
    | _ => .error ⟨nested.span, "Expected named parameter"⟩

/-- `NamedAttrs::parse` (attributes.rs). -/
def NamedAttrs.parse (meta : Meta) (expected : List String) : Except Err NamedAttrs :=
  match meta with
  | .mlist _ _ nested => do
    let values ← NamedAttrs.parseEntries (String.intercalate ", " expected) nested .empty
    .ok ⟨values⟩
  | m => .error ⟨m.span, "Expected named parameters list"⟩

/-- `Option<Result<T>>::transpose`. -/
def transposeOR {α : Type} (o : Option (Except Err α)) : Except Err (Option α) :=
  match o with
  | none => .ok none
  | some (.ok a) => .ok (some a)
  | some (.error e) => .error e

/-- `parse_name` (attributes.rs): 1 to 32 Unicode scalar values. -/
def parse_name (val : AttrValue) : Except Err String := do
  let span := val.span
  let s ← val.parse_string
  if 1 ≤ s.length ∧ s.length ≤ 32 then
    .ok s
  else
    .error ⟨span, "Name must be between 1 and 32 characters"⟩

/-- `parse_description` (attributes.rs): 1 to 100 Unicode scalar values. -/
def parse_description (val : AttrValue) : Except Err String := do
  let span := val.span
  let s ← val.parse_string
  if 1 ≤ s.length ∧ s.length ≤ 100 then
    .ok s
  else
    .error ⟨span, "Description must be between 1 and 100 characters"⟩

/-- `TypeAttribute` (attributes.rs). -/
structure TypeAttribute where
  name : String
  desc : Option String
  default_permission : Bool
  deriving DecidableEq, Repr

/-- `TypeAttribute::parse` (attributes.rs). -/
def TypeAttribute.parse (attr : Attribute) : Except Err TypeAttribute := do
  let meta ← attr.parse_meta
  let attrs ← NamedAttrs.parse meta ["name", "desc", "default_permission"]
  let name ←
    match attrs.get "name" with
    | some val => parse_name val
    | none => Except.error ⟨attr.span, "Missing required attribute `name`"⟩
  let desc ← transposeOR ((attrs.get "desc").map parse_description)
  let default_permission ←
    ((attrs.get "default_permission").map (fun v => v.parse_bool)).getD (.ok true)
  .ok ⟨name, desc, default_permission⟩

/-- `FieldAttribute` (attributes.rs). -/
structure FieldAttribute where
  rename : Option String
  desc : Option String
  deriving DecidableEq, Repr

/-- `derive(Default)` for `FieldAttribute`. -/
def FieldAttribute.default : FieldAttribute := ⟨none, none⟩

/-- `FieldAttribute::parse` (attributes.rs): note that the expected-key set of
the source is `["rename", "desc", "channel_types"]`. -/
def FieldAttribute.parse (attr : Attribute) : Except Err FieldAttribute := do
  let meta ← attr.parse_meta
  let attrs ← NamedAttrs.parse meta ["rename", "desc", "channel_types"]
  let rename ← transposeOR ((attrs.get "rename").map parse_name)
  let desc ← transposeOR ((attrs.get "desc").map parse_description)
  .ok ⟨rename, desc⟩

/-- `FieldAttribute::name_default`. -/
def FieldAttribute.name_default (f : FieldAttribute) (default : String) : String :=
  match f.rename with
  | some name => name
  | none => default

/-- Rust `str::trim` on the character list: drop whitespace on both ends. -/
def trimChars (l : List Char) : List Char :=
  ((l.dropWhile Char.isWhitespace).reverse.dropWhile Char.isWhitespace).reverse

/-- Rust `str::trim`, on strings. -/
def rustTrim (s : String) : String := ⟨trimChars s.data⟩

/-- The accumulation loop of `parse_doc` (attributes.rs): append the value and
a newline for every single-segment `doc = "..."` attribute, in order. -/
def parse_doc_acc : List Attribute → String → String
  | [], doc => doc
  | attr :: rest, doc =>
    match attr.parse_meta with
    | .ok (.nameValue p (.str _ descr)) =>
      if p.segments.length = 1 ∧ p.segments.headI = "doc" then
        parse_doc_acc rest (doc ++ descr ++ "\n")
      else
        parse_doc_acc rest doc
    | _ => parse_doc_acc rest doc

/-- `parse_doc` (attributes.rs). -/
def parse_doc (attrs : List Attribute) (span : Span) : Except Err String :=
  let doc := rustTrim (parse_doc_acc attrs "")
  if 1 ≤ doc.length ∧ doc.length ≤ 100 then
    .ok doc
  else if doc.length = 0 then
    .error ⟨span, "Description is required (documentation comment or `desc` attribute)"⟩
  else
    .error ⟨span, "Description must be between 1 and 100 characters"⟩

namespace SpecParse

/-- Modelled from the spec: the repository module `crate::parse` (imported by
`command/subcommand/parse.rs` but not present in the sources) provides its own
`NamedAttrs`. Spec §4.2: reject a non-list body; reject an entry that is not a
single `identifier = literal` pair; reject an identifier that is not in the
recognized-key set, with a message enumerating the set; otherwise insert into
the table. This is the loop over entries. -/
def parseEntriesSpec (expected : List String) :
    List TwilightInteractions.NestedMeta → TwilightInteractions.AttrTable →
    Except TwilightInteractions.Err TwilightInteractions.AttrTable
  | [], values => .ok values
  | nested :: rest, values =>
    match nested with
    | .meta (.nameValue p l) =>
      match p.get_ident with
      | some key =>
        if key ∈ expected then
          parseEntriesSpec expected rest (values.insert key ⟨l⟩)
        else
          .error ⟨p.span,
            "Invalid parameter name (expected " ++ String.intercalate ", " expected ++ ")"⟩
      | none =>
        .error ⟨p.span,
          "Invalid parameter name (expected " ++ String.intercalate ", " expected ++ ")"⟩
    | _ => .error ⟨nested.span, "Expected named parameter"⟩

/-- Modelled from the spec: `crate::parse::NamedAttrs::parse` (spec §4.2,
step 1 and the entry loop). -/
def NamedAttrs.parse (meta : TwilightInteractions.Meta) (expected : List String) :
    Except TwilightInteractions.Err TwilightInteractions.NamedAttrs :=
  match meta with
  | .mlist _ _ nested => do
    let values ← parseEntriesSpec expected nested .empty
    .ok ⟨values⟩
  | m => .error ⟨m.span, "Expected named parameters list"⟩

/-- Modelled from the spec: `crate::parse::parse_name` (spec §4.3): extract a
string, succeed iff its Unicode scalar count is in [1,32]. -/
def parse_name (val : TwilightInteractions.AttrValue) :
    Except TwilightInteractions.Err String := do
  let span := val.span
  let s ← val.parse_string
  if 1 ≤ s.length ∧ s.length ≤ 32 then
    .ok s
  else
    .error ⟨span, "Name must be between 1 and 32 characters"⟩

/-- Modelled from the spec: `crate::parse::parse_desc` (spec §4.3): extract a
string, succeed iff its Unicode scalar count is in [1,100]. -/
def parse_desc (val : TwilightInteractions.AttrValue) :
    Except TwilightInteractions.Err String := do
  let span := val.span
  let s ← val.parse_string
  if 1 ≤ s.length ∧ s.length ≤ 100 then
    .ok s
  else
    .error ⟨span, "Description must be between 1 and 100 characters"⟩

end SpecParse

/-- `syn::TypePath`, abstracted to its span and printed form. -/
structure TypePath where
  span : Span
  name : String
  deriving DecidableEq, Repr

/-- `syn::Type`: a type path or any other kind of type. -/
inductive Type' where
  | path (tp : TypePath)
  | other (span : Span)
  deriving DecidableEq, Repr

instance : Inhabited Type' := ⟨.other 0⟩

/-- `Type::span`. -/
def Type'.span : Type' → Span
  | .path tp => tp.span
  | .other sp => sp

/-- `syn::Field`, reduced to its type. -/
structure Field where
  ty : Type'
  deriving Inhabited

/-- `syn::Fields`. -/
inductive Fields where
  | named (fs : List Field)
  | unnamed (fs : List Field)
  | unit

/-- `syn::Variant`. -/
structure Variant where
  span : Span
  ident : String
  attrs : List Attribute
  fields : Fields

namespace Subcommand

/-- `VariantAttribute` (subcommand/parse.rs). -/
structure VariantAttribute where
  name : String
  deriving DecidableEq, Repr

/-- `VariantAttribute::parse` (subcommand/parse.rs); uses the spec-modelled
`crate::parse` helpers. -/
def VariantAttribute.parse (attr : Attribute) : Except Err VariantAttribute := do
  let meta ← attr.parse_meta
  let attrs ← SpecParse.NamedAttrs.parse meta ["name"]
  let name ←
    match attrs.get "name" with
    | some val => SpecParse.parse_name val
    | none => Except.error ⟨attr.span, "Missing required attribute `name`"⟩
  .ok ⟨name⟩

/-- `ParsedVariant` (subcommand/parse.rs). -/
structure ParsedVariant where
  span : Span
  ident : String
  «attribute» : VariantAttribute
  inner : TypePath

/-- `ParsedVariant::from_variant` (subcommand/parse.rs). -/
def ParsedVariant.from_variant (variant : Variant) : Except Err ParsedVariant := do
  let span := variant.span
  let fields ←
    match variant.fields with
    | .unnamed fs => Except.ok fs
    | _ => Except.error ⟨span, "Variant must be an unnamed variant"⟩
  if fields.length ≠ 1 then
    Except.error ⟨span, "Variant must have exactly one unnamed field"⟩
  else do
    let inner ←
      match (fields.headI).ty with
      | .path ty => Except.ok ty
      | .other osp => Except.error ⟨osp, "Unsupported type, expected a type path"⟩
    let «attribute» ←
      match find_attr variant.attrs "command" with
      | some attr => VariantAttribute.parse attr
      | none => Except.error ⟨span, "Missing required #[command(..)] attribute"⟩
    .ok ⟨span, variant.ident, «attribute», inner⟩

/-- Rust `Iterator::map(f).collect::<Result<Vec<_>>>()`: apply `f` left to
right, stopping at the first error. -/
def collectResults (f : Variant → Except Err ParsedVariant) :
    List Variant → Except Err (List ParsedVariant)
  | [] => .ok []
  | v :: rest => do
    let pv ← f v
    let pvs ← collectResults f rest
    .ok (pv :: pvs)

/-- `ParsedVariant::from_variants` (subcommand/parse.rs). -/
def ParsedVariant.from_variants (variants : List Variant) (input_span : Span) :
    Except Err (List ParsedVariant) :=
  if variants.isEmpty then
    .error ⟨input_span, "Enum must have at least one variant"⟩
  else
    collectResults ParsedVariant.from_variant variants

/-- `TypeAttribute::parse` (subcommand/parse.rs); same fields as the
`attributes.rs` model, but built on the spec-modelled `crate::parse` helpers
and with `transpose()?.unwrap_or(true)` for `default_permission`. -/
def TypeAttribute.parse (attr : Attribute) :
    Except Err TwilightInteractions.TypeAttribute := do
  let meta ← attr.parse_meta
  let attrs ← SpecParse.NamedAttrs.parse meta ["name", "desc", "default_permission"]
  let name ←
    match attrs.get "name" with
    | some val => SpecParse.parse_name val
    | none => Except.error ⟨attr.span, "Missing required attribute `name`"⟩
  let desc ← transposeOR ((attrs.get "desc").map SpecParse.parse_desc)
  let default_permission ←
    transposeOR ((attrs.get "default_permission").map (fun v => v.parse_bool))
  .ok ⟨name, desc, default_permission.getD true⟩

end Subcommand

/-! Spec-side reformulations and hypothesis encodings used by the theorems. -/

/-- Spec side (for comparison with `parse_doc`): the string values of the
single-segment `doc` name-value attributes, in declaration order. -/
def docLines : List Attribute → List String
  | [] => []
  | attr :: rest =>
    match attr.parse_meta with
    | .ok (.nameValue p (.str _ descr)) =>
      if p.segments.length = 1 ∧ p.segments.headI = "doc" then
        descr :: docLines rest
      else
        docLines rest
    | _ => docLines rest

/-- Spec side: lines joined by newlines. -/
def joinLines : List String → String
  | [] => ""
  | [s] => s
  | s :: rest => s ++ "\n" ++ joinLines rest

/-- Proof helper: each line followed by a newline, concatenated (the raw
accumulator shape of `parse_doc`). -/
def concatNl : List String → String
  | [] => ""
  | s :: rest => s ++ "\n" ++ concatNl rest

/-- The entry's parameter key, when it has one, is literally a member of the
expected-key list. -/
def keyOk (expected : List String) : NestedMeta → Bool
  | .meta (.nameValue p _) =>
    (match p.get_ident with
     | some key => expected.contains key
     | none => true)
  | _ => true

/-- Every parameter key appearing in the entry list is literally a member of
the expected-key list. -/
def keysRecognized (expected : List String) : List NestedMeta → Bool
  | [] => true
  | nested :: rest => keyOk expected nested && keysRecognized expected rest

/-- A variant of the shape required by the subcommand normalizer: a single
unnamed field whose type is a type path, and a `#[command(...)]` attribute
that parses to a valid variant attribute. -/
def goodVariant (v : Variant) : Bool :=
  (match v.fields with
   | .unnamed [f] =>
     match f.ty with
     | .path _ => true
     | .other _ => false
   | _ => false) &&
  (match find_attr v.attrs "command" with
   | some attr => (Subcommand.VariantAttribute.parse attr).isOk
   | none => false)

/-! Concrete inputs used by counterexamples and witnesses. -/

/-- A field attribute `#[command(channel_types = <lit>)]`. -/
def chAttrC2 : Attribute :=
  ⟨20, ⟨21, ["command"]⟩,
    .ok (.mlist 22 ⟨23, ["command"]⟩
      [.meta (.nameValue ⟨24, ["channel_types"]⟩ (.other 25))])⟩

/-- A field attribute `#[command(foo = "x")]` with the unrecognized key `foo`. -/
def fooAttrC2 : Attribute :=
  ⟨26, ⟨27, ["command"]⟩,
    .ok (.mlist 28 ⟨29, ["command"]⟩
      [.meta (.nameValue ⟨56, ["foo"]⟩ (.str 57 "x"))])⟩

/-- A type attribute `#[command(nam = "x", name = "cmd")]`: the key `nam` is
not a recognized key but is a substring of the joined expected-key listing. -/
def mixedKeysAttr : Attribute :=
  ⟨30, ⟨31, ["command"]⟩,
    .ok (.mlist 32 ⟨33, ["command"]⟩
      [.meta (.nameValue ⟨34, ["nam"]⟩ (.str 35 "x")),
       .meta (.nameValue ⟨36, ["name"]⟩ (.str 37 "cmd"))])⟩

/-- A type attribute `#[command(name = "cmd", default_permission = false)]`
using only recognized keys. -/
def agreeAttr : Attribute :=
  ⟨60, ⟨61, ["command"]⟩,
    .ok (.mlist 62 ⟨63, ["command"]⟩
      [.meta (.nameValue ⟨64, ["name"]⟩ (.str 65 "cmd")),
       .meta (.nameValue ⟨66, ["default_permission"]⟩ (.bool 67 false))])⟩

/-- A type attribute `#[command(name = "cmd", default_permission = false)]`
for the `default_permission` witness. -/
def dpAttr : Attribute :=
  ⟨70, ⟨71, ["command"]⟩,
    .ok (.mlist 72 ⟨73, ["command"]⟩
      [.meta (.nameValue ⟨74, ["name"]⟩ (.str 75 "cmd")),
       .meta (.nameValue ⟨76, ["default_permission"]⟩ (.bool 77 false))])⟩

/-- An enum variant `#[command(name = "foo")] Foo(FooCmd)`. -/
def goodVar : Variant :=
  ⟨40, "Foo",
    [⟨41, ⟨42, ["command"]⟩,
      .ok (.mlist 43 ⟨44, ["command"]⟩
        [.meta (.nameValue ⟨45, ["name"]⟩ (.str 46 "foo"))])⟩],
    .unnamed [⟨.path ⟨47, "FooCmd"⟩⟩]⟩

/-! Helper lemmas. -/

theorem bindOk {α β : Type} (a : α) (f : α → Except Err β) :
    (Except.ok a >>= f) = f a := rfl

theorem bindErr {α β : Type} (e : Err) (f : α → Except Err β) :
    ((Except.error e : Except Err α) >>= f) = Except.error e := rfl

theorem parse_name_str (sp : Span) (s : String) :
    parse_name ⟨.str sp s⟩ =
      if 1 ≤ s.length ∧ s.length ≤ 32 then .ok s
      else .error ⟨sp, "Name must be between 1 and 32 characters"⟩ := rfl

/-- C4: for every string-literal attribute value, `parse_name` returns the
contained string unchanged if and only if its Unicode scalar count is between
1 and 32 inclusive; for count 0 or at least 33 it fails with the name-length
error. -/
theorem parse_name_length_spec (sp : Span) (s : String) :
    (parse_name ⟨.str sp s⟩ = .ok s ↔ 1 ≤ s.length ∧ s.length ≤ 32) ∧
    (s.length = 0 ∨ 33 ≤ s.length →
      parse_name ⟨.str sp s⟩ =
        .error ⟨sp, "Name must be between 1 and 32 characters"⟩) := by
  constructor
  · rw [parse_name_str]
    split_ifs with h
    · simp [h]
    · simp [h]
  · intro hd
    rw [parse_name_str, if_neg (by omega)]

/-- Witness for C4 at the strings "hello" (length 5) and "" (length 0). -/
theorem parse_name_length_spec_witness :
    parse_name ⟨.str 7 "hello"⟩ = .ok "hello" ∧
    parse_name ⟨.str 7 ""⟩ =
      .error ⟨7, "Name must be between 1 and 32 characters"⟩ :=
  ⟨(parse_name_length_spec 7 "hello").1.mpr (by decide),
   (parse_name_length_spec 7 "").2 (Or.inl (by decide))⟩

/-- C8: for the empty variant sequence, `ParsedVariant::from_variants` fails
with the empty-enum error attached to the supplied input span. -/
theorem from_variants_empty_enum (sp : Span) :
    Subcommand.ParsedVariant.from_variants [] sp =
      .error ⟨sp, "Enum must have at least one variant"⟩ := rfl

/-- C9: `name_default` returns the rename when present and the default
identifier when absent; the all-default model resolves to the identifier. -/
theorem name_default_spec (f : FieldAttribute) (d : String) :
    (∀ n, f.rename = some n → f.name_default d = n) ∧
    (f.rename = none → f.name_default d = d) ∧
    FieldAttribute.default.name_default d = d := by
  refine ⟨?_, ?_, rfl⟩
  · intro n h
    simp [FieldAttribute.name_default, h]
  · intro h
    simp [FieldAttribute.name_default, h]

/-- Witness for C9 at a renamed and an all-default field attribute. -/
theorem name_default_spec_witness :
    FieldAttribute.name_default ⟨some "member", none⟩ "user" = "member" ∧
    FieldAttribute.name_default ⟨none, none⟩ "user" = "user" :=
  ⟨(name_default_spec ⟨some "member", none⟩ "user").1 "member" rfl,
   (name_default_spec ⟨none, none⟩ "user").2.1 rfl⟩

/-- C1 (the code disagrees): the key `nam` is not in the recognized-key set
`{name, desc, default_permission}`, yet `NamedAttrs::parse` accepts it and
stores its value, because the membership test is a substring test against the
joined listing "name, desc, default_permission". -/
theorem unrecognized_key_nam_accepted :
    ("nam" ∉ ["name", "desc", "default_permission"]) ∧
    (NamedAttrs.parse
        (.mlist 10 ⟨11, ["command"]⟩
          [.meta (.nameValue ⟨12, ["nam"]⟩ (.str 13 "x"))])
        ["name", "desc", "default_permission"]).toOption.map
        (fun t => t.get "nam") =
      some (some ⟨.str 13 "x"⟩) :=
  ⟨by decide, rfl⟩

/-- C3: `NamedAttrs` lookup is order-independent and duplicate keys overwrite
silently: parsing `[a = va, b = vb]` in either order yields tables whose `get`
agrees on both keys, and when the key `a` appears twice the last value wins. -/
theorem named_attrs_order_indep (expected : List String) (spm spa spb : Span)
    (p : Path) (a b : String) (va vb : Lit)
    (hab : a ≠ b)
    (ha : strContains (String.intercalate ", " expected) a = true)
    (hb : strContains (String.intercalate ", " expected) b = true) :
    ((NamedAttrs.parse
        (.mlist spm p [.meta (.nameValue ⟨spa, [a]⟩ va), .meta (.nameValue ⟨spb, [b]⟩ vb)])
        expected).toOption.map (fun t => t.get a) =
      (NamedAttrs.parse
        (.mlist spm p [.meta (.nameValue ⟨spb, [b]⟩ vb), .meta (.nameValue ⟨spa, [a]⟩ va)])
        expected).toOption.map (fun t => t.get a)) ∧
    ((NamedAttrs.parse
        (.mlist spm p [.meta (.nameValue ⟨spa, [a]⟩ va), .meta (.nameValue ⟨spb, [b]⟩ vb)])
        expected).toOption.map (fun t => t.get b) =
      (NamedAttrs.parse
        (.mlist spm p [.meta (.nameValue ⟨spb, [b]⟩ vb), .meta (.nameValue ⟨spa, [a]⟩ va)])
        expected).toOption.map (fun t => t.get b)) ∧
    ((NamedAttrs.parse
        (.mlist spm p [.meta (.nameValue ⟨spa, [a]⟩ va), .meta (.nameValue ⟨spb, [a]⟩ vb)])
        expected).toOption.map (fun t => t.get a) = some (some ⟨vb⟩)) := by
  refine ⟨?_, ?_, ?_⟩ <;>
    simp [NamedAttrs.parse, NamedAttrs.parseEntries, Path.get_ident, ha, hb,
      NamedAttrs.get, AttrTable.insert, AttrTable.empty, hab, Ne.symm hab,
      Except.toOption, bindOk]

/-- Witness for C3 with keys `name` and `desc` of the type-attribute set. -/
theorem named_attrs_order_indep_witness :
    (NamedAttrs.parse
        (.mlist 0 ⟨0, ["command"]⟩
          [.meta (.nameValue ⟨0, ["name"]⟩ (.str 0 "x")),
           .meta (.nameValue ⟨0, ["name"]⟩ (.str 0 "y"))])
        ["name", "desc", "default_permission"]).toOption.map (fun t => t.get "name") =
      some (some ⟨.str 0 "y"⟩) :=
  (named_attrs_order_indep ["name", "desc", "default_permission"] 0 0 0
    ⟨0, ["command"]⟩ "name" "desc" (.str 0 "x") (.str 0 "y")
    (by decide) (by decide) (by decide)).2.2

theorem parseEntries_unrecognized (eJ : String) (q : Path) (lit : Lit) (k : String)
    (hk : q.get_ident = some k) (hsub : strContains eJ k = false) :
    ∀ (l : List NestedMeta) (acc : AttrTable),
      NestedMeta.meta (Meta.nameValue q lit) ∈ l →
      (NamedAttrs.parseEntries eJ l acc).isOk = false := by
  intro l
  induction l with
  | nil =>
    intro acc h
    cases h
  | cons hd tl ih =>
    intro acc h
    rcases List.mem_cons.mp h with heq | hmem
    · subst heq
      simp [NamedAttrs.parseEntries, hk, hsub, Except.isOk, Except.toBool]
    · match hd with
      | .meta (.nameValue p' l') =>
        cases hgi : p'.get_ident with
        | none => simp [NamedAttrs.parseEntries, hgi, Except.isOk, Except.toBool]
        | some key =>
          cases hc : strContains eJ key with
          | true =>
            simp only [NamedAttrs.parseEntries, hgi, hc, if_true]
            exact ih _ hmem
          | false => simp [NamedAttrs.parseEntries, hgi, hc, Except.isOk, Except.toBool]
      | .meta (.path p') => simp [NamedAttrs.parseEntries, Except.isOk, Except.toBool]
      | .meta (.mlist sp' p' n') => simp [NamedAttrs.parseEntries, Except.isOk, Except.toBool]
      | .lit l' => simp [NamedAttrs.parseEntries, Except.isOk, Except.toBool]

/-- C2 (amended): the field-level recognized-key set is `{rename, desc,
channel_types}`; a `channel_types` entry is accepted (and ignored), while an
attribute list containing a key that is not a substring of the joined listing
"rename, desc, channel_types" makes `FieldAttribute::parse` fail. -/
theorem field_attribute_key_vocab (attr : Attribute) (sp : Span) (p q : Path)
    (nested : List NestedMeta) (l : Lit) (k : String)
    (hmeta : attr.parse_meta = .ok (.mlist sp p nested))
    (hmem : NestedMeta.meta (Meta.nameValue q l) ∈ nested)
    (hk : q.get_ident = some k)
    (hsub : strContains "rename, desc, channel_types" k = false) :
    (FieldAttribute.parse attr).isOk = false ∧
    FieldAttribute.parse chAttrC2 = .ok ⟨none, none⟩ := by
  refine ⟨?_, rfl⟩
  have hj : String.intercalate ", " ["rename", "desc", "channel_types"] =
      "rename, desc, channel_types" := rfl
  have hfail := parseEntries_unrecognized "rename, desc, channel_types" q l k
    hk hsub nested AttrTable.empty hmem
  cases hpe : NamedAttrs.parseEntries "rename, desc, channel_types" nested
      AttrTable.empty with
  | ok v =>
    rw [hpe] at hfail
    simp [Except.isOk, Except.toBool] at hfail
  | error e =>
    simp [FieldAttribute.parse, hmeta, NamedAttrs.parse, hj, hpe, bindOk,
      bindErr, Except.isOk, Except.toBool]

/-- Witness for C2 at `#[command(foo = "x")]` (fails) and the `channel_types`
example (succeeds). -/
theorem field_attribute_key_vocab_witness :
    (FieldAttribute.parse fooAttrC2).isOk = false ∧
    FieldAttribute.parse chAttrC2 = .ok ⟨none, none⟩ :=
  field_attribute_key_vocab fooAttrC2 28 ⟨29, ["command"]⟩ ⟨56, ["foo"]⟩
    [.meta (.nameValue ⟨56, ["foo"]⟩ (.str 57 "x"))] (.str 57 "x") "foo"
    rfl (List.mem_singleton.mpr rfl) rfl (by decide)

/-- C2 (counterexample to the claim as stated): an attribute list containing
the key `channel_types` parses successfully at field level. -/
theorem field_channel_types_accepted :
    FieldAttribute.parse chAttrC2 = .ok ⟨none, none⟩ := rfl

theorem strAppend_data (s t : String) : (s ++ t).data = s.data ++ t.data := rfl

theorem strEmpty_data : ("" : String).data = [] := rfl

theorem strAppend_empty (s : String) : s ++ "" = s :=
  String.ext (by rw [strAppend_data, strEmpty_data, List.append_nil])

theorem strEmpty_append (s : String) : "" ++ s = s :=
  String.ext (by rw [strAppend_data, strEmpty_data, List.nil_append])

theorem strAppend_assoc (a b c : String) : a ++ b ++ c = a ++ (b ++ c) :=
  String.ext (by simp only [strAppend_data, List.append_assoc])

theorem dropWhile_ws_append_nl (l : List Char) :
    (l ++ ['\n']).dropWhile Char.isWhitespace =
      if (l.dropWhile Char.isWhitespace).isEmpty then []
      else l.dropWhile Char.isWhitespace ++ ['\n'] := by
  have hnl : Char.isWhitespace '\n' = true := by decide
  induction l with
  | nil => simp [List.dropWhile_cons, hnl]
  | cons c cs ih =>
    by_cases h : Char.isWhitespace c
    · simpa [List.dropWhile_cons, h] using ih
    · simp [List.dropWhile_cons, h]

theorem trimChars_append_nl (l : List Char) :
    trimChars (l ++ ['\n']) = trimChars l := by
  have hnl : Char.isWhitespace '\n' = true := by decide
  unfold trimChars
  rw [dropWhile_ws_append_nl]
  cases hd : l.dropWhile Char.isWhitespace with
  | nil => simp
  | cons a as =>
    simp [List.reverse_append, List.dropWhile_cons, hnl]

theorem rustTrim_append_nl (s : String) : rustTrim (s ++ "\n") = rustTrim s := by
  unfold rustTrim
  congr 1
  rw [strAppend_data]
  exact trimChars_append_nl s.data

theorem parse_doc_acc_concat : ∀ (attrs : List Attribute) (pre : String),
    parse_doc_acc attrs pre = pre ++ concatNl (docLines attrs) := by
  intro attrs
  induction attrs with
  | nil =>
    intro pre
    simp only [parse_doc_acc, docLines, concatNl]
    exact (strAppend_empty pre).symm
  | cons attr rest ih =>
    intro pre
    simp only [parse_doc_acc, docLines]
    cases hm : attr.parse_meta with
    | error e => exact ih pre
    | ok m =>
      cases m with
      | path p => exact ih pre
      | mlist sp p n => exact ih pre
      | nameValue p lit =>
        cases lit with
        | bool bsp b => exact ih pre
        | other osp => exact ih pre
        | str ssp descr =>
          show (if p.segments.length = 1 ∧ p.segments.headI = "doc" then
              parse_doc_acc rest (pre ++ descr ++ "\n")
            else parse_doc_acc rest pre) =
            pre ++ concatNl (if p.segments.length = 1 ∧ p.segments.headI = "doc" then
              descr :: docLines rest
            else docLines rest)
          by_cases hc : p.segments.length = 1 ∧ p.segments.headI = "doc"
          · rw [if_pos hc, if_pos hc, ih,
              show concatNl (descr :: docLines rest) =
                descr ++ "\n" ++ concatNl (docLines rest) from rfl]
            simp only [strAppend_assoc]
          · rw [if_neg hc, if_neg hc]
            exact ih pre

theorem concatNl_eq_joinLines (s : String) (rest : List String) :
    concatNl (s :: rest) = joinLines (s :: rest) ++ "\n" := by
  induction rest generalizing s with
  | nil =>
    show s ++ "\n" ++ concatNl [] = joinLines [s] ++ "\n"
    simp only [concatNl, joinLines]
    exact strAppend_empty _
  | cons r rs ih =>
    show s ++ "\n" ++ concatNl (r :: rs) = joinLines (s :: r :: rs) ++ "\n"
    rw [ih r]
    show s ++ "\n" ++ (joinLines (r :: rs) ++ "\n") =
      s ++ "\n" ++ joinLines (r :: rs) ++ "\n"
    exact (strAppend_assoc _ _ _).symm

/-- C5: `parse_doc` equals the specification: the values of the single-segment
`doc` name-value attributes in declaration order, joined by newlines and
trimmed of surrounding whitespace; an empty result fails with the
description-required error, a result of more than 100 Unicode scalar values
fails with the description-length error, and otherwise the trimmed string is
returned. -/
theorem parse_doc_spec (attrs : List Attribute) (sp : Span) :
    parse_doc attrs sp =
      (if (rustTrim (joinLines (docLines attrs))).length = 0 then
        .error ⟨sp, "Description is required (documentation comment or `desc` attribute)"⟩
      else if (rustTrim (joinLines (docLines attrs))).length ≤ 100 then
        .ok (rustTrim (joinLines (docLines attrs)))
      else
        .error ⟨sp, "Description must be between 1 and 100 characters"⟩) := by
  have heq : rustTrim (parse_doc_acc attrs "") =
      rustTrim (joinLines (docLines attrs)) := by
    rw [parse_doc_acc_concat, strEmpty_append]
    cases hls : docLines attrs with
    | nil => rfl
    | cons s rest => rw [concatNl_eq_joinLines, rustTrim_append_nl]
  rw [show parse_doc attrs sp =
      (if 1 ≤ (rustTrim (parse_doc_acc attrs "")).length ∧
          (rustTrim (parse_doc_acc attrs "")).length ≤ 100 then
        .ok (rustTrim (parse_doc_acc attrs ""))
      else if (rustTrim (parse_doc_acc attrs "")).length = 0 then
        .error ⟨sp, "Description is required (documentation comment or `desc` attribute)"⟩
      else
        .error ⟨sp, "Description must be between 1 and 100 characters"⟩) from rfl,
    heq]
  generalize rustTrim (joinLines (docLines attrs)) = d
  split_ifs with h1 h2 h3 <;> first | rfl | omega

/-- Witness for C5: a declaration with no documentation attributes fails with
the description-required error. -/
theorem parse_doc_spec_witness :
    parse_doc [] 9 =
      .error ⟨9, "Description is required (documentation comment or `desc` attribute)"⟩ :=
  (parse_doc_spec [] 9).trans rfl

theorem type_attr_parse_table (attr : Attribute) (m : Meta) (tbl : NamedAttrs)
    (hm : attr.parse_meta = .ok m)
    (hna : NamedAttrs.parse m ["name", "desc", "default_permission"] = .ok tbl) :
    TypeAttribute.parse attr =
      ((match tbl.get "name" with
        | some val => parse_name val
        | none => Except.error ⟨attr.span, "Missing required attribute `name`"⟩) >>=
       fun name =>
        transposeOR ((tbl.get "desc").map parse_description) >>= fun desc =>
          ((tbl.get "default_permission").map (fun v => v.parse_bool)).getD (.ok true) >>=
            fun dp => .ok ⟨name, desc, dp⟩) := by
  unfold TypeAttribute.parse
  rw [hm]
  simp only [bindOk]
  rw [hna]
  simp only [bindOk]
  cases tbl.get "name" <;> rfl

/-- C6: in `TypeAttribute::parse`, an absent `default_permission` key yields
`true`; a boolean literal yields the literal's value; a non-boolean literal
makes parsing fail (once the name and description stages succeed) with the
invalid-attribute-type error at the literal's span. -/
theorem default_permission_spec (attr : Attribute) (m : Meta) (tbl : NamedAttrs)
    (hm : attr.parse_meta = .ok m)
    (hna : NamedAttrs.parse m ["name", "desc", "default_permission"] = .ok tbl) :
    (tbl.get "default_permission" = none →
      ∀ t, TypeAttribute.parse attr = .ok t → t.default_permission = true) ∧
    (∀ bsp b, tbl.get "default_permission" = some ⟨.bool bsp b⟩ →
      ∀ t, TypeAttribute.parse attr = .ok t → t.default_permission = b) ∧
    (∀ v, tbl.get "default_permission" = some v →
      (∀ bsp b, v.lit ≠ .bool bsp b) →
      ∀ nm od,
        (match tbl.get "name" with
         | some val => parse_name val
         | none => Except.error ⟨attr.span, "Missing required attribute `name`"⟩) = .ok nm →
        transposeOR ((tbl.get "desc").map parse_description) = .ok od →
        TypeAttribute.parse attr =
          .error ⟨v.lit.span, "Invalid attribute type, expected boolean"⟩) := by
  have hP := type_attr_parse_table attr m tbl hm hna
  refine ⟨?_, ?_, ?_⟩
  · intro hdp t hok
    rw [hP, hdp] at hok
    cases hn : (match tbl.get "name" with
        | some val => parse_name val
        | none => Except.error ⟨attr.span, "Missing required attribute `name`"⟩) with
    | error e =>
      rw [hn, bindErr] at hok
      cases hok
    | ok nm =>
      rw [hn, bindOk] at hok
      cases hd : transposeOR ((tbl.get "desc").map parse_description) with
      | error e =>
        rw [hd, bindErr] at hok
        cases hok
      | ok od =>
        rw [hd, bindOk] at hok
        have hok' : (Except.ok (⟨nm, od, true⟩ : TypeAttribute) : Except Err TypeAttribute) =
            .ok t := hok
        cases hok'
        rfl
  · intro bsp b hdp t hok
    rw [hP, hdp] at hok
    cases hn : (match tbl.get "name" with
        | some val => parse_name val
        | none => Except.error ⟨attr.span, "Missing required attribute `name`"⟩) with
    | error e =>
      rw [hn, bindErr] at hok
      cases hok
    | ok nm =>
      rw [hn, bindOk] at hok
      cases hd : transposeOR ((tbl.get "desc").map parse_description) with
      | error e =>
        rw [hd, bindErr] at hok
        cases hok
      | ok od =>
        rw [hd, bindOk] at hok
        have hok' : (Except.ok (⟨nm, od, b⟩ : TypeAttribute) : Except Err TypeAttribute) =
            .ok t := hok
        cases hok'
        rfl
  · intro v hdp hnb nm od hn hd
    rw [hP, hdp, hn]
    simp only [bindOk]
    rw [hd]
    simp only [bindOk]
    cases hv : v.lit with
    | bool bsp b => exact absurd hv (hnb bsp b)
    | str ssp sv =>
      have hpb : v.parse_bool = .error ⟨v.lit.span, "Invalid attribute type, expected boolean"⟩ := by
        unfold AttrValue.parse_bool
        rw [hv]
      rw [show ((Option.map (fun v => v.parse_bool) (some v)).getD (.ok true)) =
          v.parse_bool from rfl, hpb, bindErr, hv]
    | other osp =>
      have hpb : v.parse_bool = .error ⟨v.lit.span, "Invalid attribute type, expected boolean"⟩ := by
        unfold AttrValue.parse_bool
        rw [hv]
      rw [show ((Option.map (fun v => v.parse_bool) (some v)).getD (.ok true)) =
          v.parse_bool from rfl, hpb, bindErr, hv]

/-- Witness for C6 at `#[command(name = "cmd", default_permission = false)]`. -/
theorem default_permission_spec_witness :
    TypeAttribute.parse dpAttr = .ok ⟨"cmd", none, false⟩ ∧
    (⟨"cmd", none, false⟩ : TypeAttribute).default_permission = false :=
  ⟨rfl,
    (default_permission_spec dpAttr
      (.mlist 72 ⟨73, ["command"]⟩
        [.meta (.nameValue ⟨74, ["name"]⟩ (.str 75 "cmd")),
         .meta (.nameValue ⟨76, ["default_permission"]⟩ (.bool 77 false))])
      ⟨(AttrTable.empty.insert "name" ⟨.str 75 "cmd"⟩).insert
        "default_permission" ⟨.bool 77 false⟩⟩
      rfl rfl).2.1 77 false rfl ⟨"cmd", none, false⟩ rfl⟩

theorem good_variant_from_variant (v : Variant) (hv : goodVariant v = true) :
    ∃ pv, Subcommand.ParsedVariant.from_variant v = .ok pv ∧
      pv.ident = v.ident ∧ pv.span = v.span := by
  unfold goodVariant at hv
  rw [Bool.and_eq_true] at hv
  obtain ⟨h1, h2⟩ := hv
  cases hf : v.fields with
  | named fs => rw [hf] at h1; cases h1
  | unit => rw [hf] at h1; cases h1
  | unnamed fs =>
    rw [hf] at h1
    cases fs with
    | nil => cases h1
    | cons f rest =>
      cases rest with
      | cons g rest2 => cases h1
      | nil =>
        cases hty : f.ty with
        | other osp =>
          have h1' : (match f.ty with
            | Type'.path _ => true
            | Type'.other _ => false) = true := h1
          rw [hty] at h1'
          cases h1'
        | path tp =>
          cases hfa : find_attr v.attrs "command" with
          | none => rw [hfa] at h2; cases h2
          | some attr =>
            have h2' : (Subcommand.VariantAttribute.parse attr).isOk = true := by
              rw [hfa] at h2
              exact h2
            cases hpa : Subcommand.VariantAttribute.parse attr with
            | error e =>
              rw [hpa] at h2'
              cases h2'
            | ok va =>
              refine ⟨⟨v.span, v.ident, va, tp⟩, ?_, rfl, rfl⟩
              simp [Subcommand.ParsedVariant.from_variant, hf, hty, hfa, hpa,
                bindOk, List.headI]

theorem collectResults_ok (vs : List Variant)
    (h : ∀ v ∈ vs, goodVariant v = true) :
    ∃ l, Subcommand.collectResults Subcommand.ParsedVariant.from_variant vs = .ok l ∧
      l.map (fun pv => pv.ident) = vs.map (fun v => v.ident) ∧
      l.map (fun pv => pv.span) = vs.map (fun v => v.span) ∧
      l.length = vs.length := by
  induction vs with
  | nil => exact ⟨[], rfl, rfl, rfl, rfl⟩
  | cons v rest ih =>
    obtain ⟨pv, hpv, hid, hsp⟩ :=
      good_variant_from_variant v (h v (List.mem_cons_self v rest))
    obtain ⟨l, hl, hlid, hlsp, hlen⟩ := ih (fun w hw => h w (List.mem_cons_of_mem v hw))
    refine ⟨pv :: l, ?_, ?_, ?_, ?_⟩
    · simp [Subcommand.collectResults, hpv, hl, bindOk]
    · simp [hid, hlid]
    · simp [hsp, hlsp]
    · simp [hlen]

/-- C7: for every non-empty variant list in which each variant is an unnamed
variant with exactly one type-path field and a parsable `#[command(name=...)]`
attribute, `from_variants` succeeds with one `ParsedVariant` per variant, in
declaration order. -/
theorem from_variants_ordered (variants : List Variant) (sp : Span)
    (hne : variants ≠ [])
    (hgood : ∀ v ∈ variants, goodVariant v = true) :
    ∃ l, Subcommand.ParsedVariant.from_variants variants sp = .ok l ∧
      l.map (fun pv => pv.ident) = variants.map (fun v => v.ident) ∧
      l.map (fun pv => pv.span) = variants.map (fun v => v.span) ∧
      l.length = variants.length := by
  obtain ⟨l, hl, h1, h2, h3⟩ := collectResults_ok variants hgood
  refine ⟨l, ?_, h1, h2, h3⟩
  cases variants with
  | nil => exact absurd rfl hne
  | cons a as =>
    rw [show Subcommand.ParsedVariant.from_variants (a :: as) sp =
        Subcommand.collectResults Subcommand.ParsedVariant.from_variant (a :: as)
      from rfl]
    exact hl

/-- Witness for C7 at the one-variant enum `#[command(name = "foo")] Foo(FooCmd)`. -/
theorem from_variants_ordered_witness :
    ∃ l, Subcommand.ParsedVariant.from_variants [goodVar] 50 = .ok l ∧
      l.map (fun pv => pv.ident) = [goodVar].map (fun v => v.ident) ∧
      l.map (fun pv => pv.span) = [goodVar].map (fun v => v.span) ∧
      l.length = [goodVar].length :=
  from_variants_ordered [goodVar] 50 (by simp)
    (fun v hv => by
      rw [List.mem_singleton] at hv
      subst hv
      decide)

/-- C10 (counterexample to full equivalence): on
`#[command(nam = "x", name = "cmd")]` the attributes.rs parser succeeds (the
substring test accepts `nam`), while the spec-modelled `crate::parse` parser
rejects the unrecognized key. -/
theorem type_attribute_parse_diverge :
    TypeAttribute.parse mixedKeysAttr = .ok ⟨"cmd", none, true⟩ ∧
    Subcommand.TypeAttribute.parse mixedKeysAttr =
      .error ⟨34, "Invalid parameter name (expected name, desc, default_permission)"⟩ :=
  ⟨rfl, rfl⟩

theorem parseEntries_agree (exp : List String)
    (hsub : ∀ k, k ∈ exp → strContains (String.intercalate ", " exp) k = true) :
    ∀ (l : List NestedMeta) (acc : AttrTable),
      keysRecognized exp l = true →
      NamedAttrs.parseEntries (String.intercalate ", " exp) l acc =
        SpecParse.parseEntriesSpec exp l acc := by
  intro l
  induction l with
  | nil =>
    intro acc h
    rfl
  | cons hd tl ih =>
    intro acc h
    have h' : (keyOk exp hd && keysRecognized exp tl) = true := h
    rw [Bool.and_eq_true] at h'
    obtain ⟨h1, h2⟩ := h'
    cases hd with
    | lit l' => rfl
    | meta m =>
      cases m with
      | path p => rfl
      | mlist msp p n => rfl
      | nameValue p l' =>
        have h1' : (match p.get_ident with
            | some key => exp.contains key
            | none => true) = true := h1
        cases hgi : p.get_ident with
        | none =>
          show NamedAttrs.parseEntries (String.intercalate ", " exp)
              (.meta (.nameValue p l') :: tl) acc =
            SpecParse.parseEntriesSpec exp (.meta (.nameValue p l') :: tl) acc
          simp [NamedAttrs.parseEntries, SpecParse.parseEntriesSpec, hgi]
        | some key =>
          rw [hgi] at h1'
          have hmem : key ∈ exp := List.mem_of_elem_eq_true h1'
          have hc : strContains (String.intercalate ", " exp) key = true :=
            hsub key hmem
          simp only [NamedAttrs.parseEntries, SpecParse.parseEntriesSpec, hgi, hc,
            if_true, hmem, ite_true]
          exact ih _ h2

theorem named_attrs_parse_agree (m : Meta) (exp : List String)
    (hsub : ∀ k, k ∈ exp → strContains (String.intercalate ", " exp) k = true)
    (h : ∀ sp p nested, m = .mlist sp p nested → keysRecognized exp nested = true) :
    NamedAttrs.parse m exp = SpecParse.NamedAttrs.parse m exp := by
  cases m with
  | path p => rfl
  | nameValue p l => rfl
  | mlist msp p nested =>
    have hk := h msp p nested rfl
    show (do
        let values ← NamedAttrs.parseEntries (String.intercalate ", " exp) nested
          AttrTable.empty
        (Except.ok ⟨values⟩ : Except Err NamedAttrs)) =
      (do
        let values ← SpecParse.parseEntriesSpec exp nested AttrTable.empty
        (Except.ok ⟨values⟩ : Except Err NamedAttrs))
    rw [parseEntries_agree exp hsub nested AttrTable.empty hk]

theorem typeAttr_tail_agree (nr : Except Err String) (tbl : NamedAttrs) :
    (nr >>= fun name =>
      transposeOR ((tbl.get "desc").map parse_description) >>= fun desc =>
        ((tbl.get "default_permission").map (fun v => v.parse_bool)).getD (.ok true) >>=
          fun dp => (.ok ⟨name, desc, dp⟩ : Except Err TypeAttribute)) =
    (nr >>= fun name =>
      transposeOR ((tbl.get "desc").map SpecParse.parse_desc) >>= fun desc =>
        transposeOR ((tbl.get "default_permission").map (fun v => v.parse_bool)) >>=
          fun dp => (.ok ⟨name, desc, dp.getD true⟩ : Except Err TypeAttribute)) := by
  rw [show SpecParse.parse_desc = parse_description from rfl]
  cases nr with
  | error e => rw [bindErr, bindErr]
  | ok nm =>
    rw [bindOk, bindOk]
    cases dr : transposeOR ((tbl.get "desc").map parse_description) with
    | error e => rw [bindErr, bindErr]
    | ok od =>
      rw [bindOk, bindOk]
      cases hdp : tbl.get "default_permission" with
      | none => rfl
      | some v =>
        cases hb : v.parse_bool with
        | ok b =>
          simp [Option.map_some', Option.getD_some, hb, transposeOR, bindOk]
        | error e =>
          simp [Option.map_some', Option.getD_some, hb, transposeOR, bindErr]

/-- C10 (amended): the two `TypeAttribute::parse` implementations agree on
every attribute whose parameter keys are all literally in the recognized set
`{name, desc, default_permission}`; they diverge only on keys that the
substring membership test of attributes.rs wrongly accepts. -/
theorem type_attribute_parse_agree (attr : Attribute)
    (h : ∀ sp p nested, attr.parse_meta = .ok (.mlist sp p nested) →
      keysRecognized ["name", "desc", "default_permission"] nested = true) :
    TypeAttribute.parse attr = Subcommand.TypeAttribute.parse attr := by
  unfold TypeAttribute.parse Subcommand.TypeAttribute.parse
  cases hm : attr.parse_meta with
  | error e => rw [bindErr, bindErr]
  | ok m =>
    simp only [bindOk]
    have hsub : ∀ k, k ∈ ["name", "desc", "default_permission"] →
        strContains (String.intercalate ", " ["name", "desc", "default_permission"]) k
          = true := by
      intro k hk
      rcases List.mem_cons.mp hk with rfl | hk
      · decide
      rcases List.mem_cons.mp hk with rfl | hk
      · decide
      rcases List.mem_cons.mp hk with rfl | hk
      · decide
      cases hk
    have hagree := named_attrs_parse_agree m ["name", "desc", "default_permission"]
      hsub (fun sp p nested hmeq => h sp p nested (by rw [hm, hmeq]))
    rw [hagree]
    cases hna : SpecParse.NamedAttrs.parse m ["name", "desc", "default_permission"] with
    | error e => rw [bindErr, bindErr]
    | ok tbl =>
      simp only [bindOk]
      cases hg : tbl.get "name" with
      | none => rfl
      | some val => exact typeAttr_tail_agree (parse_name val) tbl

/-- Witness for C10 at `#[command(name = "cmd", default_permission = false)]`. -/
theorem type_attribute_parse_agree_witness :
    TypeAttribute.parse agreeAttr = Subcommand.TypeAttribute.parse agreeAttr :=
  type_attribute_parse_agree agreeAttr (by
    intro sp p nested hm
    have hm' : (Except.ok (Meta.mlist 62 ⟨63, ["command"]⟩
        [.meta (.nameValue ⟨64, ["name"]⟩ (.str 65 "cmd")),
         .meta (.nameValue ⟨66, ["default_permission"]⟩ (.bool 67 false))]) :
        Except Err Meta) = .ok (.mlist sp p nested) := hm
    injection hm' with h1
    injection h1 with hsp hp hn
    subst hn
    decide)

end TwilightInteractions
